import Mathlib

/-!
Verification of the cgn-cli specification against `src/main.rs`.

The four compression transforms live in the external `cgn` crate and are
treated as opaque functions, as the spec prescribes.  The `benchmark` and
`genetic_algorithm` modules are declared in `main.rs` but their source files
are not part of the sources given here; the definitions that stand in for
them are modelled from the spec and say so in their doc comments.
-/

namespace Cgn

/-- The four compression algorithm variants selected by the optimization
level: bincode, huffman, dynamic-huffman, opening-huffman. -/
inductive Algorithm where
  | bincode
  | huffman
  | dynamicHuffman
  | openingHuffman
deriving DecidableEq, Repr

/-- The `match optimization_level` dispatch of the `Compress` arm of `main`:
levels 0..3 select the four fixed variants; the wildcard arm is the
`unreachable!()` fallback, modelled as `none`. -/
def compressDispatch (optimizationLevel : Nat) : Option Algorithm :=
  match optimizationLevel with
  | 0 => some Algorithm.bincode
  | 1 => some Algorithm.huffman
  | 2 => some Algorithm.dynamicHuffman
  | 3 => some Algorithm.openingHuffman
  | _ => none

/-- The `match optimization_level` dispatch of the `Decompress` arm of `main`:
same level-to-variant mapping, selecting the decompression direction. -/
def decompressDispatch (optimizationLevel : Nat) : Option Algorithm :=
  match optimizationLevel with
  | 0 => some Algorithm.bincode
  | 1 => some Algorithm.huffman
  | 2 => some Algorithm.dynamicHuffman
  | 3 => some Algorithm.openingHuffman
  | _ => none

/-- Observable outcome of one `compress`/`decompress` CLI invocation.
`panicked` models an `unwrap()` failing while opening or reading the input
file, `unreachableHit` models the `unreachable!()` fallback arm firing,
`failedNotice msg` models printing the failure notice and returning without
touching the output path, and `wrote path data` models creating the output
file and writing `data` to it in full. -/
inductive RunOutcome (α : Type) where
  | panicked
  | unreachableHit
  | failedNotice (msg : String)
  | wrote (path : String) (data : α)
deriving DecidableEq, Repr

/-- The `Commands::Compress` arm of `main`.  Bytes are modelled as `List Nat`.
`readResult` is the result of opening and fully reading the input file
(`none` makes the `unwrap()` panic); `transforms` gives the opaque external
compress function of each algorithm variant. -/
def compressCommand (optimizationLevel : Nat) (transforms : Algorithm → String → List Nat)
    (readResult : Option String) (outputPath : String) : RunOutcome (List Nat) :=
  match readResult with
  | none => RunOutcome.panicked
  | some pgnStr =>
    match compressDispatch optimizationLevel with
    | none => RunOutcome.unreachableHit
    | some alg =>
      let compressedPgnData := transforms alg pgnStr
      if compressedPgnData = [] then RunOutcome.failedNotice "Compression failed"
      else RunOutcome.wrote outputPath compressedPgnData

/-- The `Commands::Decompress` arm of `main`.  `readResult` is the fully read
input bytes; `transforms` gives the opaque external decompress function of
each algorithm variant. -/
def decompressCommand (optimizationLevel : Nat) (transforms : Algorithm → List Nat → String)
    (readResult : Option (List Nat)) (outputPath : String) : RunOutcome String :=
  match readResult with
  | none => RunOutcome.panicked
  | some compressedPgnData =>
    match decompressDispatch optimizationLevel with
    | none => RunOutcome.unreachableHit
    | some alg =>
      let pgnData := transforms alg compressedPgnData
      if pgnData = "" then RunOutcome.failedNotice "Decompression failed"
      else RunOutcome.wrote outputPath pgnData

/-- Model of `u8::from_str` from the Rust standard library, digit loop:
accumulate ASCII decimal digits with a per-digit overflow check against the
`u8` maximum 255.  A non-digit character or an overflow yields `none`. -/
def parseU8Digits : List Char → Nat → Option Nat
  | [], acc => some acc
  | c :: rest, acc =>
    if c.isDigit then
      let acc2 := acc * 10 + (c.toNat - 48)
      if acc2 ≤ 255 then parseU8Digits rest acc2 else none
    else none

/-- Model of `u8::from_str` from the Rust standard library: an optional
leading plus sign followed by one or more ASCII decimal digits whose value
fits in a `u8`; everything else (empty string, minus sign, stray characters,
overflow) is a parse error. -/
def parseU8 (s : List Char) : Option Nat :=
  match s with
  | [] => none
  | c :: rest =>
    if c = '+' then
      match rest with
      | [] => none
      | _ :: _ => parseU8Digits rest 0
    else parseU8Digits (c :: rest) 0

/-- The error message of the optimization-level value parsers of the
`Compress` and `Decompress` subcommands. -/
def optimizationLevelMessage : String := "Optimization level must be between 0 and 3"

/-- The `value_parser` closure of the `optimization_level` argument, identical
on the `Compress` and `Decompress` subcommands: `Ok(n)` when the string
parses as a `u8` with `n <= 3`, otherwise the fixed error message. -/
def parseOptimizationLevel (s : List Char) : Except String Nat :=
  match parseU8 s with
  | some n => if n ≤ 3 then Except.ok n else Except.error optimizationLevelMessage
  | none => Except.error optimizationLevelMessage

/-- The `default_value = "3"` attribute of the `optimization_level` argument
of both subcommands; clap feeds this string through the value parser when
the flag is omitted. -/
def defaultOptimizationLevelValue : String := "3"

/-- The decimal value of a digit string. -/
def decimalValue (digits : List Char) : Nat :=
  digits.foldl (fun acc c => acc * 10 + (c.toNat - 48)) 0

/-- Declarative reading of "the string parses as an unsigned 8-bit integer
`n`": after stripping one optional leading plus sign the string is a
nonempty run of ASCII decimal digits of value `n`, and `n ≤ 255`. -/
def u8Numeral (s : List Char) (n : Nat) : Prop :=
  ∃ digits, (s = digits ∨ s = '+' :: digits) ∧ digits ≠ [] ∧
    (∀ c ∈ digits, c.isDigit = true) ∧ decimalValue digits = n ∧ n ≤ 255

/-- Model of an `f64` value as the mutation-rate parser observes it: a finite
value (an exact rational), one of the two infinities, or NaN. -/
inductive FVal where
  | nan
  | inf
  | neginf
  | fin (q : ℚ)
deriving DecidableEq, Repr

/-- `f64::clamp(0.0, 1.0)` per its Rust semantics: NaN stays NaN, values
above the range clamp to 1, values below clamp to 0. -/
def clamp01 : FVal → FVal
  | FVal.nan => FVal.nan
  | FVal.inf => FVal.fin 1
  | FVal.neginf => FVal.fin 0
  | FVal.fin q => FVal.fin (min 1 (max 0 q))

/-- The `value_parser` closure of the gen-algo `mutation_rate` argument:
`s.parse::<f64>().map(|n| n.clamp(0.0, 1.0))`.  The `f64` parse itself is
standard-library behaviour, so the closure is modelled as a function of the
parse result. -/
def parseMutationRate (parseResult : Option FVal) : Option FVal :=
  parseResult.map clamp01

/-- Modelled from the spec: the size selector `ToTake` of the `bench` and
`gen-algo` subcommands — "either a literal non-negative integer count, or the
literal token `all`".  Its declaring module `benchmark.rs` is not among the
given sources. -/
inductive ToTake where
  | all
  | count (n : Nat)
deriving DecidableEq, Repr

/-- Modelled from the spec: a corpus record together with the verdict of the
well-formedness check the Dataset Sampler applies to it.  The sampler lives
in the `benchmark` module, which is not among the given sources; the actual
well-formedness check is therefore kept abstract as a boolean verdict. -/
structure CorpusRecord where
  text : String
  wellFormed : Bool
deriving DecidableEq, Repr

/-- Modelled from the spec: the Dataset Sampler.  Malformed records are
skipped and never counted toward `n`; selection is deterministic
first-N-encountered order; `all` keeps every well-formed record. -/
def sampleSet (selector : ToTake) (corpus : List CorpusRecord) : List CorpusRecord :=
  let wf := corpus.filter fun r => r.wellFormed
  match selector with
  | ToTake.all => wf
  | ToTake.count n => wf.take n

/-- Modelled from the spec: `ParameterVector = {height: float, dev: float}`.
Gene values are modelled as exact rationals. -/
structure ParameterVector where
  height : ℚ
  dev : ℚ
deriving DecidableEq, Repr

/-- Modelled from the spec: an `Individual` is a `ParameterVector` plus its
fitness. -/
structure Individual where
  pv : ParameterVector
  fitness : ℚ
deriving DecidableEq, Repr

/-- The `GeneticAlgorithmConfig` struct, with the fields `main` fills from
the `GenAlgo` CLI arguments.  The struct is declared in `genetic_algorithm.rs`,
which is not among the given sources; the field list is taken from its
construction site in `main`. -/
structure GeneticAlgorithmConfig where
  initPopulation : Nat
  numberOfGames : ToTake
  generations : Nat
  mutationRate : FVal
  tournamentSize : Nat
  heightMin : ℚ
  heightMax : ℚ
  devMin : ℚ
  devMax : ℚ
  inputDbPath : String
  outputPath : String

/-- Clamp of a gene value to its configured `[lo, hi]` bounds, per the Rust
`clamp` semantics on ordered values. -/
def clampQ (lo hi x : ℚ) : ℚ :=
  if x < lo then lo else if hi < x then hi else x

/-- Modelled from the spec: per-gene arithmetic-blending crossover
(`child_gene = a + α·(b − a)` with a fresh `α` per gene) followed by a clamp
of each gene to its configured bounds. -/
def crossover (c : GeneticAlgorithmConfig) (a b : ParameterVector)
    (alphaHeight alphaDev : ℚ) : ParameterVector :=
  { height := clampQ c.heightMin c.heightMax (a.height + alphaHeight * (b.height - a.height)),
    dev := clampQ c.devMin c.devMax (a.dev + alphaDev * (b.dev - a.dev)) }

/-- Modelled from the spec: mutation perturbs each gene independently (with
probability `mutation_rate`, here the decisions `mutHeight`/`mutDev` of the
pseudo-random source) by a random delta and re-clamps it to its bounds. -/
def mutate (c : GeneticAlgorithmConfig) (p : ParameterVector)
    (deltaHeight deltaDev : ℚ) (mutHeight mutDev : Bool) : ParameterVector :=
  { height := if mutHeight then clampQ c.heightMin c.heightMax (p.height + deltaHeight) else p.height,
    dev := if mutDev then clampQ c.devMin c.devMax (p.dev + deltaDev) else p.dev }

/-- Both genes of a `ParameterVector` lie within the configured bounds. -/
def inBounds (c : GeneticAlgorithmConfig) (p : ParameterVector) : Prop :=
  c.heightMin ≤ p.height ∧ p.height ≤ c.heightMax ∧ c.devMin ≤ p.dev ∧ p.dev ≤ c.devMax

/-- The fittest individual among `i :: rest` (the later of two equally fit
individuals is not preferred). -/
def bestOf (i : Individual) : List Individual → Individual
  | [] => i
  | j :: rest =>
    let k := bestOf j rest
    if i.fitness < k.fitness then k else i

/-- The best fitness of a population (0 for the empty population, which
never arises in a run). -/
def bestFitness : List Individual → ℚ
  | [] => 0
  | i :: rest => (bestOf i rest).fitness

/-- The elite of a population: its single highest-fitness individual. -/
def eliteOf : List Individual → Option Individual
  | [] => none
  | i :: rest => some (bestOf i rest)

/-- Modelled from the spec: Evaluate — compute fitness for every individual
via the (deterministic, SampleSet-fixed) Fitness Function. -/
def evaluate (fit : ParameterVector → ℚ) (pop : List ParameterVector) : List Individual :=
  pop.map fun p => { pv := p, fitness := fit p }

/-- Modelled from the spec: one Select→Reproduce→Elitism step of the
Population Manager.  `offspring` are the reproduced parameter vectors kept
after the elite replaces one offspring slot; the elite of the current
generation is copied unmodified into the next generation. -/
def nextGeneration (fit : ParameterVector → ℚ) (cur : List Individual)
    (offspring : List ParameterVector) : List Individual :=
  match cur with
  | [] => []
  | i :: rest => bestOf i rest :: evaluate fit offspring

/-- Modelled from the spec: the generation loop — `g` iterations of
Evaluate→Select→Reproduce with elitism, from the evaluated initial
population, the reproduced offspring of each generation drawn from the
pseudo-random source `offspring`. -/
def runGenerations (fit : ParameterVector → ℚ) (offspring : Nat → List ParameterVector)
    (pop0 : List Individual) : Nat → List Individual
  | 0 => pop0
  | g + 1 => nextGeneration fit (runGenerations fit offspring pop0 g) (offspring g)

/-- The malformed-configuration check of the spec's failure semantics:
`height_min > height_max`, `dev_min > dev_max`, `population_size == 0`,
`tournament_size == 0` or `tournament_size > population_size`. -/
def configMalformed (c : GeneticAlgorithmConfig) : Bool :=
  decide (c.heightMax < c.heightMin) || decide (c.devMax < c.devMin) ||
  decide (c.initPopulation = 0) || decide (c.tournamentSize = 0) ||
  decide (c.initPopulation < c.tournamentSize)

/-- Outcome of a gen-algo run: fail-fast configuration error, or a completed
run with its final population. -/
inductive GenAlgoOutcome where
  | configError
  | completed (finalPop : List Individual)
deriving DecidableEq, Repr

/-- Modelled from the spec: the `genetic_algorithm` entry point — a malformed
configuration fails fast before the first generation runs, otherwise the
loop runs for exactly `generations` iterations. -/
def geneticAlgorithm (c : GeneticAlgorithmConfig) (fit : ParameterVector → ℚ)
    (offspring : Nat → List ParameterVector) (pop0 : List Individual) : GenAlgoOutcome :=
  if configMalformed c then GenAlgoOutcome.configError
  else GenAlgoOutcome.completed (runGenerations fit offspring pop0 c.generations)

/-- A concrete well-formed configuration, used to exercise the theorems. -/
def sampleConfig : GeneticAlgorithmConfig :=
  { initPopulation := 2, numberOfGames := ToTake.all, generations := 1,
    mutationRate := FVal.fin (1/2), tournamentSize := 1,
    heightMin := 0, heightMax := 1, devMin := 0, devMax := 1,
    inputDbPath := "db.pgn", outputPath := "out.txt" }

/-- A concrete malformed configuration (population size 0), used to exercise
the fail-fast theorem. -/
def zeroPopulationConfig : GeneticAlgorithmConfig :=
  { sampleConfig with initPopulation := 0 }

/-! ### Helper lemmas -/

theorem clampQ_mem {lo hi : ℚ} (h : lo ≤ hi) (x : ℚ) :
    lo ≤ clampQ lo hi x ∧ clampQ lo hi x ≤ hi := by
  unfold clampQ
  split_ifs with h1 h2 <;> constructor <;> linarith

theorem fitness_le_bestOf (i : Individual) (rest : List Individual) :
    i.fitness ≤ (bestOf i rest).fitness := by
  cases rest with
  | nil => exact le_refl _
  | cons j tail =>
    simp only [bestOf]
    split
    · exact le_of_lt (by assumption)
    · exact le_refl _

theorem runGenerations_ne_nil (fit : ParameterVector → ℚ)
    (off : Nat → List ParameterVector) (pop0 : List Individual)
    (h : pop0 ≠ []) (g : Nat) : runGenerations fit off pop0 g ≠ [] := by
  induction g with
  | zero => exact h
  | succ g ih =>
    simp only [runGenerations]
    cases hg : runGenerations fit off pop0 g with
    | nil => exact absurd hg ih
    | cons i rest => simp [nextGeneration]

theorem bestFitness_le_nextGeneration (fit : ParameterVector → ℚ)
    (cur : List Individual) (hcur : cur ≠ [])
    (offspring : List ParameterVector) :
    bestFitness cur ≤ bestFitness (nextGeneration fit cur offspring) := by
  cases cur with
  | nil => exact absurd rfl hcur
  | cons i rest =>
    show (bestOf i rest).fitness ≤ (bestOf (bestOf i rest) (evaluate fit offspring)).fitness
    exact fitness_le_bestOf _ _

theorem dispatch_of_le_three (n : Nat) (h : n ≤ 3) :
    ∃ alg, compressDispatch n = some alg ∧ decompressDispatch n = some alg := by
  interval_cases n <;> exact ⟨_, rfl, rfl⟩

theorem compressCommand_eq_of_dispatch {n : Nat} {alg : Algorithm}
    (h : compressDispatch n = some alg) (t : Algorithm → String → List Nat)
    (s p : String) :
    compressCommand n t (some s) p =
      if t alg s = [] then RunOutcome.failedNotice "Compression failed"
      else RunOutcome.wrote p (t alg s) := by
  simp [compressCommand, h]

theorem decompressCommand_eq_of_dispatch {n : Nat} {alg : Algorithm}
    (h : decompressDispatch n = some alg) (t : Algorithm → List Nat → String)
    (bs : List Nat) (p : String) :
    decompressCommand n t (some bs) p =
      if t alg bs = "" then RunOutcome.failedNotice "Decompression failed"
      else RunOutcome.wrote p (t alg bs) := by
  simp [decompressCommand, h]

theorem compressCommand_ne_unreachable {n : Nat} {alg : Algorithm}
    (h : compressDispatch n = some alg) (t : Algorithm → String → List Nat)
    (r : Option String) (p : String) :
    compressCommand n t r p ≠ RunOutcome.unreachableHit := by
  cases r with
  | none => simp [compressCommand]
  | some s =>
    rw [compressCommand_eq_of_dispatch h]
    split <;> simp

theorem decompressCommand_ne_unreachable {n : Nat} {alg : Algorithm}
    (h : decompressDispatch n = some alg) (t : Algorithm → List Nat → String)
    (r : Option (List Nat)) (p : String) :
    decompressCommand n t r p ≠ RunOutcome.unreachableHit := by
  cases r with
  | none => simp [decompressCommand]
  | some bs =>
    rw [decompressCommand_eq_of_dispatch h]
    split <;> simp

/-! ### Claim theorems -/

/-- C1: for every optimization level 0–3 the compress and decompress
commands dispatch to exactly one of the four fixed variants — 0 to bincode,
1 to huffman, 2 to dynamic-huffman, 3 to opening-huffman — and when the
level is at most 3 the `unreachable!()` fallback arm of both dispatch
matches is never reached. -/
theorem dispatch_covers_levels (n : Nat) (h : n ≤ 3) :
    compressDispatch 0 = some Algorithm.bincode ∧
    compressDispatch 1 = some Algorithm.huffman ∧
    compressDispatch 2 = some Algorithm.dynamicHuffman ∧
    compressDispatch 3 = some Algorithm.openingHuffman ∧
    decompressDispatch 0 = some Algorithm.bincode ∧
    decompressDispatch 1 = some Algorithm.huffman ∧
    decompressDispatch 2 = some Algorithm.dynamicHuffman ∧
    decompressDispatch 3 = some Algorithm.openingHuffman ∧
    (∃ alg, compressDispatch n = some alg ∧ decompressDispatch n = some alg) ∧
    (∀ t r p, compressCommand n t r p ≠ RunOutcome.unreachableHit) ∧
    (∀ t r p, decompressCommand n t r p ≠ RunOutcome.unreachableHit) := by
  obtain ⟨alg, hc, hd⟩ := dispatch_of_le_three n h
  exact ⟨rfl, rfl, rfl, rfl, rfl, rfl, rfl, rfl, ⟨alg, hc, hd⟩,
    fun t r p => compressCommand_ne_unreachable hc t r p,
    fun t r p => decompressCommand_ne_unreachable hd t r p⟩

theorem dispatch_covers_levels_witness :
    compressDispatch 0 = some Algorithm.bincode ∧
    compressDispatch 1 = some Algorithm.huffman ∧
    compressDispatch 2 = some Algorithm.dynamicHuffman ∧
    compressDispatch 3 = some Algorithm.openingHuffman ∧
    decompressDispatch 0 = some Algorithm.bincode ∧
    decompressDispatch 1 = some Algorithm.huffman ∧
    decompressDispatch 2 = some Algorithm.dynamicHuffman ∧
    decompressDispatch 3 = some Algorithm.openingHuffman ∧
    (∃ alg, compressDispatch 2 = some alg ∧ decompressDispatch 2 = some alg) ∧
    (∀ t r p, compressCommand 2 t r p ≠ RunOutcome.unreachableHit) ∧
    (∀ t r p, decompressCommand 2 t r p ≠ RunOutcome.unreachableHit) :=
  dispatch_covers_levels 2 (by decide)

/-- C2: if the chosen transform of the compress command returns an empty
byte vector, or the chosen transform of the decompress command returns an
empty string, the command prints the failure notice and returns without
writing the output file; if the transform output is non-empty, it is written
in full to the given output path. -/
theorem empty_transform_output_fails (level : Nat) (h : level ≤ 3)
    (tC : Algorithm → String → List Nat) (tD : Algorithm → List Nat → String)
    (input : String) (cin : List Nat) (pC pD : String) :
    ∃ alg, compressDispatch level = some alg ∧ decompressDispatch level = some alg ∧
      (tC alg input = [] →
        compressCommand level tC (some input) pC = RunOutcome.failedNotice "Compression failed") ∧
      (tC alg input ≠ [] →
        compressCommand level tC (some input) pC = RunOutcome.wrote pC (tC alg input)) ∧
      (tD alg cin = "" →
        decompressCommand level tD (some cin) pD = RunOutcome.failedNotice "Decompression failed") ∧
      (tD alg cin ≠ "" →
        decompressCommand level tD (some cin) pD = RunOutcome.wrote pD (tD alg cin)) := by
  obtain ⟨alg, hc, hd⟩ := dispatch_of_le_three level h
  refine ⟨alg, hc, hd, ?_, ?_, ?_, ?_⟩ <;> intro hx <;>
    simp [compressCommand_eq_of_dispatch hc, decompressCommand_eq_of_dispatch hd, hx]

theorem empty_transform_output_fails_witness :
    compressCommand 0 (fun _ _ => []) (some "") "out" =
      RunOutcome.failedNotice "Compression failed" := by
  obtain ⟨alg, hc, hd, h1, h2, h3, h4⟩ :=
    empty_transform_output_fails 0 (by decide) (fun _ _ => []) (fun _ _ => "") "" [] "out" "out"
  exact h1 rfl

/-- C8: output-file atomicity — the output file is written only when the
input file was fully read and the chosen transform produced non-empty
output, and then it receives the full transform output; an input-read
failure terminates the run (panic) and a transform failure returns early,
in both cases without touching the output path. -/
theorem output_written_only_after_read (level : Nat)
    (tC : Algorithm → String → List Nat) (tD : Algorithm → List Nat → String)
    (rC : Option String) (rD : Option (List Nat)) (pC pD : String) :
    (rC = none → compressCommand level tC rC pC = RunOutcome.panicked) ∧
    (∀ q d, compressCommand level tC rC pC = RunOutcome.wrote q d →
      q = pC ∧ d ≠ [] ∧ ∃ s alg, rC = some s ∧ compressDispatch level = some alg ∧ d = tC alg s) ∧
    (rD = none → decompressCommand level tD rD pD = RunOutcome.panicked) ∧
    (∀ q d, decompressCommand level tD rD pD = RunOutcome.wrote q d →
      q = pD ∧ d ≠ "" ∧ ∃ bs alg, rD = some bs ∧ decompressDispatch level = some alg ∧ d = tD alg bs) := by
  refine ⟨?_, ?_, ?_, ?_⟩
  · rintro rfl; rfl
  · intro q d hw
    cases rC with
    | none => simp [compressCommand] at hw
    | some s =>
      cases hdisp : compressDispatch level with
      | none => simp [compressCommand, hdisp] at hw
      | some alg =>
        rw [compressCommand_eq_of_dispatch hdisp] at hw
        by_cases hempty : tC alg s = []
        · rw [if_pos hempty] at hw; exact absurd hw (by simp)
        · rw [if_neg hempty] at hw
          injection hw with hq hd
          exact ⟨hq.symm, hd ▸ hempty, s, alg, rfl, rfl, hd.symm⟩
  · rintro rfl; rfl
  · intro q d hw
    cases rD with
    | none => simp [decompressCommand] at hw
    | some bs =>
      cases hdisp : decompressDispatch level with
      | none => simp [decompressCommand, hdisp] at hw
      | some alg =>
        rw [decompressCommand_eq_of_dispatch hdisp] at hw
        by_cases hempty : tD alg bs = ""
        · rw [if_pos hempty] at hw; exact absurd hw (by simp)
        · rw [if_neg hempty] at hw
          injection hw with hq hd
          exact ⟨hq.symm, hd ▸ hempty, bs, alg, rfl, rfl, hd.symm⟩

theorem output_written_only_after_read_witness :
    compressCommand 1 (fun _ _ => [0]) (none : Option String) "out" = RunOutcome.panicked := by
  obtain ⟨h1, h2, h3, h4⟩ :=
    output_written_only_after_read 1 (fun _ _ => [0]) (fun _ _ => "x")
      (none : Option String) (some []) "out" "out2"
  exact h1 rfl

/-- C9: the gen-algo mutation-rate value parser never rejects a parseable
value: every `f64` parse result is accepted, a finite value `x` is stored as
`min(1, max(0, x))` (silent clamping, no range error), infinities clamp to
the range ends, and NaN is accepted and stored as NaN. -/
theorem mutation_rate_clamped (r : Option FVal) :
    ((parseMutationRate r).isSome ↔ r.isSome) ∧
    (∀ q : ℚ, r = some (FVal.fin q) → parseMutationRate r = some (FVal.fin (min 1 (max 0 q)))) ∧
    (r = some FVal.nan → parseMutationRate r = some FVal.nan) ∧
    (r = some FVal.inf → parseMutationRate r = some (FVal.fin 1)) ∧
    (r = some FVal.neginf → parseMutationRate r = some (FVal.fin 0)) ∧
    (r = none → parseMutationRate r = none) := by
  refine ⟨?_, ?_, ?_, ?_, ?_, ?_⟩
  · cases r <;> simp [parseMutationRate]
  · rintro q rfl; rfl
  · rintro rfl; rfl
  · rintro rfl; rfl
  · rintro rfl; rfl
  · rintro rfl; rfl

theorem mutation_rate_clamped_witness :
    parseMutationRate (some (FVal.fin 2)) = some (FVal.fin 1) := by
  have h := (mutation_rate_clamped (some (FVal.fin 2))).2.1 2 rfl
  have : min (1 : ℚ) (max 0 2) = 1 := by norm_num
  rw [this] at h
  exact h

/-- C10: when the optimization-level flag is omitted, the default value "3"
passes the value parser as level 3, and level 3 selects the opening-huffman
variant for both compress and decompress. -/
theorem default_level_is_opening_huffman :
    parseOptimizationLevel defaultOptimizationLevelValue.toList = Except.ok 3 ∧
    compressDispatch 3 = some Algorithm.openingHuffman ∧
    decompressDispatch 3 = some Algorithm.openingHuffman :=
  ⟨rfl, rfl, rfl⟩

/-- C4: a gen-algo invocation with a malformed configuration
(`height_min > height_max`, `dev_min > dev_max`, population size 0,
tournament size 0, or tournament size greater than the population size)
fails fast before the first generation is evaluated; no partial run is
attempted. -/
theorem malformed_config_fails_fast (c : GeneticAlgorithmConfig)
    (fit : ParameterVector → ℚ) (off : Nat → List ParameterVector)
    (pop0 : List Individual)
    (h : c.heightMax < c.heightMin ∨ c.devMax < c.devMin ∨ c.initPopulation = 0 ∨
      c.tournamentSize = 0 ∨ c.initPopulation < c.tournamentSize) :
    geneticAlgorithm c fit off pop0 = GenAlgoOutcome.configError := by
  have hm : configMalformed c = true := by
    simp only [configMalformed, Bool.or_eq_true, decide_eq_true_eq]
    tauto
  simp [geneticAlgorithm, hm]

theorem malformed_config_fails_fast_witness :
    geneticAlgorithm zeroPopulationConfig (fun _ => 0) (fun _ => []) [] =
      GenAlgoOutcome.configError :=
  malformed_config_fails_fast zeroPopulationConfig (fun _ => 0) (fun _ => []) []
    (Or.inr (Or.inr (Or.inl rfl)))

/-- C5: elitism invariant — the elite (single highest-fitness individual) of
each generation is carried unmodified at the head of the next generation,
and consequently the best fitness is non-decreasing from each generation to
the next. -/
theorem elitism_monotone (fit : ParameterVector → ℚ)
    (off : Nat → List ParameterVector) (pop0 : List Individual)
    (h : pop0 ≠ []) (g : Nat) :
    (runGenerations fit off pop0 (g + 1)).head? = eliteOf (runGenerations fit off pop0 g) ∧
    bestFitness (runGenerations fit off pop0 g) ≤
      bestFitness (runGenerations fit off pop0 (g + 1)) := by
  have hne := runGenerations_ne_nil fit off pop0 h g
  constructor
  · show (nextGeneration fit (runGenerations fit off pop0 g) (off g)).head? =
      eliteOf (runGenerations fit off pop0 g)
    cases hg : runGenerations fit off pop0 g with
    | nil => exact absurd hg hne
    | cons i rest => simp [nextGeneration, eliteOf]
  · show bestFitness (runGenerations fit off pop0 g) ≤
      bestFitness (nextGeneration fit (runGenerations fit off pop0 g) (off g))
    exact bestFitness_le_nextGeneration fit _ hne (off g)

theorem elitism_monotone_witness :
    (runGenerations (fun _ => 0) (fun _ => []) [⟨⟨0, 0⟩, 0⟩] (0 + 1)).head? =
      eliteOf (runGenerations (fun _ => 0) (fun _ => []) [⟨⟨0, 0⟩, 0⟩] 0) ∧
    bestFitness (runGenerations (fun _ => 0) (fun _ => []) [⟨⟨0, 0⟩, 0⟩] 0) ≤
      bestFitness (runGenerations (fun _ => 0) (fun _ => []) [⟨⟨0, 0⟩, 0⟩] (0 + 1)) :=
  elitism_monotone (fun _ => 0) (fun _ => []) [⟨⟨0, 0⟩, 0⟩] (List.cons_ne_nil _ _) 0

/-- C6: sampling invariant — with selector `Count n` the sampler yields
exactly `min n w` well-formed records (`w` being the number of well-formed
records in the corpus), with selector `All` exactly the `w` well-formed
records; malformed records are skipped and never counted, and the selection
is the deterministic first-N-encountered order. -/
theorem sampler_invariant (corpus : List CorpusRecord) (n : Nat) :
    (sampleSet (ToTake.count n) corpus).length =
      min n (corpus.filter fun r => r.wellFormed).length ∧
    sampleSet ToTake.all corpus = corpus.filter (fun r => r.wellFormed) ∧
    (∀ r ∈ sampleSet (ToTake.count n) corpus, r.wellFormed = true) ∧
    (∃ rest, corpus.filter (fun r => r.wellFormed) =
      sampleSet (ToTake.count n) corpus ++ rest) := by
  refine ⟨?_, rfl, ?_, ?_⟩
  · simp [sampleSet]
  · intro r hr
    have hmem : r ∈ corpus.filter fun x => x.wellFormed :=
      List.mem_of_mem_take hr
    exact (List.mem_filter.mp hmem).2
  · show ∃ rest, corpus.filter (fun r => r.wellFormed) =
      (corpus.filter fun r => r.wellFormed).take n ++ rest
    exact ⟨(corpus.filter fun r => r.wellFormed).drop n,
      (List.take_append_drop _ _).symm⟩

theorem sampler_invariant_witness :
    (sampleSet (ToTake.count 1) [⟨"a", true⟩, ⟨"b", false⟩]).length =
      min 1 (([⟨"a", true⟩, ⟨"b", false⟩] : List CorpusRecord).filter
        fun r => r.wellFormed).length :=
  (sampler_invariant [⟨"a", true⟩, ⟨"b", false⟩] 1).1

/-- C7: gene-bound invariant — after every crossover and after every
mutation, both genes (height and dev) of every individual lie within their
configured `[min, max]` bounds. -/
theorem genes_in_bounds (c : GeneticAlgorithmConfig)
    (hh : c.heightMin ≤ c.heightMax) (hd : c.devMin ≤ c.devMax)
    (a b p : ParameterVector) (alphaHeight alphaDev deltaHeight deltaDev : ℚ)
    (mutHeight mutDev : Bool) (hp : inBounds c p) :
    inBounds c (crossover c a b alphaHeight alphaDev) ∧
    inBounds c (mutate c p deltaHeight deltaDev mutHeight mutDev) := by
  obtain ⟨hp1, hp2, hp3, hp4⟩ := hp
  constructor
  · exact ⟨(clampQ_mem hh _).1, (clampQ_mem hh _).2,
      (clampQ_mem hd _).1, (clampQ_mem hd _).2⟩
  · refine ⟨?_, ?_, ?_, ?_⟩
    · cases mutHeight
      · simpa [mutate] using hp1
      · simpa [mutate] using (clampQ_mem hh (p.height + deltaHeight)).1
    · cases mutHeight
      · simpa [mutate] using hp2
      · simpa [mutate] using (clampQ_mem hh (p.height + deltaHeight)).2
    · cases mutDev
      · simpa [mutate] using hp3
      · simpa [mutate] using (clampQ_mem hd (p.dev + deltaDev)).1
    · cases mutDev
      · simpa [mutate] using hp4
      · simpa [mutate] using (clampQ_mem hd (p.dev + deltaDev)).2

theorem genes_in_bounds_witness :
    inBounds sampleConfig (crossover sampleConfig ⟨0, 1⟩ ⟨1, 0⟩ (1/2) (1/2)) ∧
    inBounds sampleConfig (mutate sampleConfig ⟨0, 1⟩ (1/4) (1/4) true false) :=
  genes_in_bounds sampleConfig (by norm_num [sampleConfig]) (by norm_num [sampleConfig])
    ⟨0, 1⟩ ⟨1, 0⟩ ⟨0, 1⟩ (1/2) (1/2) (1/4) (1/4) true false
    (by norm_num [sampleConfig, inBounds])

theorem le_foldl_digits (ds : List Char) (acc : Nat) :
    acc ≤ List.foldl (fun a c => a * 10 + (c.toNat - 48)) acc ds := by
  induction ds generalizing acc with
  | nil => exact le_refl _
  | cons c ds ih =>
    calc acc ≤ acc * 10 + (c.toNat - 48) := by omega
      _ ≤ List.foldl (fun a c => a * 10 + (c.toNat - 48)) (acc * 10 + (c.toNat - 48)) ds :=
        ih _
      _ = List.foldl (fun a c => a * 10 + (c.toNat - 48)) acc (c :: ds) := rfl

theorem parseU8Digits_eq_some (ds : List Char) :
    ∀ acc, acc ≤ 255 → ∀ n,
      (parseU8Digits ds acc = some n ↔
        (∀ c ∈ ds, c.isDigit = true) ∧
        List.foldl (fun a c => a * 10 + (c.toNat - 48)) acc ds = n ∧ n ≤ 255) := by
  induction ds with
  | nil =>
    intro acc hacc n
    simp only [parseU8Digits, Option.some.injEq, List.not_mem_nil, false_implies,
      implies_true, List.foldl_nil, true_and]
    omega
  | cons c ds ih =>
    intro acc hacc n
    simp only [parseU8Digits, List.foldl_cons, List.mem_cons, forall_eq_or_imp]
    by_cases hc : c.isDigit
    · rw [if_pos hc]
      by_cases hacc2 : acc * 10 + (c.toNat - 48) ≤ 255
      · rw [if_pos hacc2, ih _ hacc2 n]
        simp [hc]
      · rw [if_neg hacc2]
        constructor
        · intro h; exact Option.noConfusion h
        · rintro ⟨_, hfold, hle⟩
          exfalso
          have := le_foldl_digits ds (acc * 10 + (c.toNat - 48))
          omega
    · rw [if_neg hc]
      constructor
      · intro h; exact Option.noConfusion h
      · rintro ⟨⟨h1, _⟩, _, _⟩
        exact absurd h1 hc

theorem parseU8_eq_some (s : List Char) (n : Nat) :
    parseU8 s = some n ↔ u8Numeral s n := by
  cases s with
  | nil =>
    constructor
    · intro h; exact Option.noConfusion h
    · rintro ⟨digits, (hd | hd), hne, -⟩
      · exact absurd hd.symm hne
      · exact List.noConfusion hd
  | cons c rest =>
    by_cases hplus : c = '+'
    · subst hplus
      cases rest with
      | nil =>
        constructor
        · intro h; exact Option.noConfusion h
        · rintro ⟨digits, (hd | hd), hne, hdig, -⟩
          · exfalso
            have : ('+' : Char).isDigit = true := by
              apply hdig; rw [← hd]; exact List.mem_cons_self _ _
            exact absurd this (by decide)
          · injection hd with h1 h2
            exact absurd h2.symm hne
      | cons r rs =>
        rw [show parseU8 ('+' :: r :: rs) = parseU8Digits (r :: rs) 0 from rfl,
          parseU8Digits_eq_some (r :: rs) 0 (by omega) n]
        simp only [u8Numeral, decimalValue]
        constructor
        · rintro ⟨hdig, hval, hle⟩
          exact ⟨r :: rs, Or.inr rfl, List.cons_ne_nil _ _, hdig, hval, hle⟩
        · rintro ⟨digits, (hd | hd), hne, hdig, hval, hle⟩
          · exfalso
            have : ('+' : Char).isDigit = true := by
              apply hdig; rw [← hd]; exact List.mem_cons_self _ _
            exact absurd this (by decide)
          · injection hd with h1 h2
            subst h2
            exact ⟨hdig, hval, hle⟩
    · rw [show parseU8 (c :: rest) =
          if c = '+' then
            (match rest with
             | [] => none
             | _ :: _ => parseU8Digits rest 0)
          else parseU8Digits (c :: rest) 0 from rfl,
        if_neg hplus, parseU8Digits_eq_some (c :: rest) 0 (by omega) n]
      simp only [u8Numeral, decimalValue]
      constructor
      · rintro ⟨hdig, hval, hle⟩
        exact ⟨c :: rest, Or.inl rfl, List.cons_ne_nil _ _, hdig, hval, hle⟩
      · rintro ⟨digits, (hd | hd), hne, hdig, hval, hle⟩
        · subst hd
          exact ⟨hdig, hval, hle⟩
        · injection hd with h1 h2
          exact absurd h1 hplus

/-- C3: the optimization-level value parser of compress and decompress
returns `Ok n` exactly when the argument string parses as an unsigned 8-bit
integer `n` with `n ≤ 3`, and returns the error message "Optimization level
must be between 0 and 3" for every other string (non-numeric, negative,
greater than 3, or overflowing `u8`). -/
theorem opt_level_accepts_exactly_small_u8 (s : List Char) :
    (∀ n, parseOptimizationLevel s = Except.ok n ↔ u8Numeral s n ∧ n ≤ 3) ∧
    ((∀ n, ¬(u8Numeral s n ∧ n ≤ 3)) →
      parseOptimizationLevel s = Except.error optimizationLevelMessage) := by
  constructor
  · intro n
    unfold parseOptimizationLevel
    cases hp : parseU8 s with
    | none =>
      constructor
      · intro h; exact Except.noConfusion h
      · rintro ⟨hnum, -⟩
        have hsome := (parseU8_eq_some s n).mpr hnum
        rw [hp] at hsome
        exact Option.noConfusion hsome
    | some m =>
      show (if m ≤ 3 then Except.ok m else Except.error optimizationLevelMessage) =
          Except.ok n ↔ u8Numeral s n ∧ n ≤ 3
      by_cases hm : m ≤ 3
      · rw [if_pos hm]
        constructor
        · intro h
          injection h with h1
          subst h1
          exact ⟨(parseU8_eq_some s m).mp hp, hm⟩
        · rintro ⟨hnum, hn3⟩
          have hsome := (parseU8_eq_some s n).mpr hnum
          rw [hp] at hsome
          injection hsome with h2
          rw [h2]
      · rw [if_neg hm]
        constructor
        · intro h; exact Except.noConfusion h
        · rintro ⟨hnum, hn3⟩
          have hsome := (parseU8_eq_some s n).mpr hnum
          rw [hp] at hsome
          injection hsome with h2
          exact absurd (h2 ▸ hn3) hm
  · intro hno
    unfold parseOptimizationLevel
    cases hp : parseU8 s with
    | none => rfl
    | some m =>
      show (if m ≤ 3 then Except.ok m else Except.error optimizationLevelMessage) =
        Except.error optimizationLevelMessage
      by_cases hm : m ≤ 3
      · exact absurd ⟨(parseU8_eq_some s m).mp hp, hm⟩ (hno m)
      · rw [if_neg hm]

theorem opt_level_accepts_exactly_small_u8_witness :
    parseOptimizationLevel ['3'] = Except.ok 3 :=
  ((opt_level_accepts_exactly_small_u8 ['3']).1 3).mpr
    ⟨⟨['3'], Or.inl rfl, by decide, by decide, by decide, by decide⟩, by decide⟩

end Cgn
